import Mathlib

/-!
Shallow embedding of vuex-tstore's proxy-generation layer
(src/mutations.ts and src/getters.ts), together with the store contract
the spec describes in §6 (commit, global commit subscription, live
getter registry).  Payloads and getter values are modelled by one opaque
type parameter `P`; handler functions are modelled by the only datum the
wrapper layer ever inspects, their declared name.
-/

/-- Error taxonomy of the spec (§7). -/
inductive TStoreError where
  | InvalidHandlerIdentity
  | DuplicateKey
  | ReadOnlyPropertyError
deriving DecidableEq, Repr

/-- A raw handler function, as seen by the wrapper layer: the layer never
calls the handler body itself (the store does), it only reads the
function's declared name.  The empty string models an anonymous handler
(JavaScript `fn.name` of an anonymous function). -/
structure Handler where
  name : String
deriving DecidableEq, Repr

/-- Options argument of a commit; the deferred accessor always passes
root := true. -/
structure CommitOptions where
  root : Bool
deriving DecidableEq, Repr

/-- A subscription installed by `deferred.listen`: the filter callback
`ev => if ev.type === mutationKey then handler.call(store, ev.payload)`
is represented by the key it filters on and the identity of the user
handler it invokes.  `id` identifies the subscription for its disposer. -/
structure Subscription where
  id : Nat
  filterKey : String
  listener : Nat
deriving DecidableEq, Repr

/-- The external store (spec §6), in state-passing style.  `commits` logs
every `store.commit` call, `listenerCalls` logs every invocation of a
user listener handler with its payload, `getters` is the live registry
of derived values. -/
structure StoreState (P : Type) where
  commits : List (String × Option P × Option CommitOptions)
  subs : List Subscription
  nextSubId : Nat
  listenerCalls : List (Nat × Option P)
  getters : String → Option P

/-- Synchronous notification of the commit-subscription stream: each
`listen`-installed filter fires its handler exactly when the committed
type equals its filter key. -/
def notify (subs : List Subscription) (type : String) (payload : Option P) :
    List (Nat × Option P) :=
  subs.filterMap fun s =>
    if s.filterKey = type then some (s.listener, payload) else none

/-- `store.commit(type, payload, options)`: logs the commit and
synchronously runs every subscriber on the committed event. -/
def StoreState.commit (st : StoreState P) (type : String) (payload : Option P)
    (opts : Option CommitOptions) : StoreState P :=
  { st with
    commits := st.commits ++ [(type, payload, opts)]
    listenerCalls := st.listenerCalls ++ notify st.subs type payload }

/-- `store.subscribe` with a `listen`-shaped filter callback: appends the
subscription and returns its id (the handle the disposer closes over). -/
def StoreState.subscribeFilter (st : StoreState P) (filterKey : String)
    (listener : Nat) : StoreState P × Nat :=
  ({ st with
      subs := st.subs ++ [⟨st.nextSubId, filterKey, listener⟩]
      nextSubId := st.nextSubId + 1 },
   st.nextSubId)

/-- The disposer returned by `store.subscribe`: removes exactly the
subscription it was created for. -/
def StoreState.unsubscribe (st : StoreState P) (subId : Nat) : StoreState P :=
  { st with subs := st.subs.filter fun s => s.id != subId }

/-- Pure key qualification (spec §4.1): the identifier unchanged under the
empty namespace, otherwise namespace ++ "/" ++ identifier. -/
def qualifyStr (identifier ns : String) : String :=
  if ns = "" then identifier else ns ++ "/" ++ identifier

/-- Modelled from the spec: `qualifyKey` lives in src/util.ts, which is not
part of the provided sources; §4.1 specifies that it derives the dispatch
key from the handler's identifier and namespace, failing with
`InvalidHandlerIdentity` when no identifier can be derived (an anonymous
handler with no name). -/
def qualifyKey (handler : Handler) (ns : String) : Except TStoreError String :=
  if handler.name = "" then .error .InvalidHandlerIdentity
  else .ok (qualifyStr handler.name ns)

/-- One wrapped mutation accessor (the `deferred` closure of
src/mutations.ts lines 101-111): the property name it is installed under,
the qualified dispatch key it closes over, and its callable behavior
(payload ↦ commit(mutationKey, payload, root: true) through the
accumulated committer). -/
structure Accessor (P : Type) where
  propName : String
  dispatchKey : String
  call : StoreState P → Option P → StoreState P

/-- `deferred.listen(handler)` (src/mutations.ts lines 106-111): subscribe
a filter on the accessor's qualified key; returns the disposer handle. -/
def Accessor.listen (a : Accessor P) (st : StoreState P) (L : Nat) :
    StoreState P × Nat :=
  st.subscribeFilter a.dispatchKey L

/-- The object built by wrapMutations: the callable part (the base
commit passthrough of src/mutations.ts lines 119-121) plus the accessor
properties installed by Object.defineProperty. -/
structure Wrapper (P : Type) where
  call : String → Option P → Option CommitOptions → StoreState P → StoreState P
  props : List (Accessor P)

/-- The reduce seed of wrapMutations: a direct passthrough
(type, payload, options) ↦ store.commit(type, payload, options). -/
def baseCall (P : Type) :
    String → Option P → Option CommitOptions → StoreState P → StoreState P :=
  fun type payload options st => st.commit type payload options

/-- The reduce body of wrapMutations (src/mutations.ts lines 91-118): per
entry, qualify the handler's declared name eagerly, build the `deferred`
closure over the accumulated committer, and install it under the map key. -/
def wrapMutationsGo (ns : String) (w : Wrapper P) :
    List (String × Handler) → Except TStoreError (Wrapper P)
  | [] => .ok w
  | e :: rest => do
      let mutationKey ← qualifyKey e.2 ns
      wrapMutationsGo ns
        { w with
          props := w.props ++
            [⟨e.1, mutationKey, fun st payload =>
                w.call mutationKey payload (some ⟨true⟩) st⟩] }
        rest

/-- wrapMutations(namespace, store, mutations): reduce over
Object.entries(mutations) starting from the commit passthrough.  The
store handle itself is threaded at call time in this embedding. -/
def wrapMutations (P : Type) (ns : String) (entries : List (String × Handler)) :
    Except TStoreError (Wrapper P) :=
  wrapMutationsGo ns ⟨baseCall P, []⟩ entries

/-- One property installed by wrapGetters (src/getters.ts lines 236-242):
the map key it is named by, the captured getter handler's declared name,
the captured namespace, and whether the defineProperty descriptor carried
a setter (it passes only `get`, hence false). -/
structure GetterProp where
  propName : String
  getterName : String
  ns : String
  hasSetter : Bool
deriving DecidableEq, Repr

/-- The body of the installed `get()` accessor: qualification happens here,
on each read, and the result is the registry's current value at the
qualified key. -/
def GetterProp.read (g : GetterProp) (st : StoreState P) :
    Except TStoreError (Option P) := do
  let key ← qualifyKey ⟨g.getterName⟩ g.ns
  pure (st.getters key)

/-- Assigning to a property whose descriptor has an accessor getter and no
setter fails; the spec names this failure ReadOnlyPropertyError. -/
def writeProperty (g : GetterProp) : Except TStoreError Unit :=
  if g.hasSetter then .ok () else .error .ReadOnlyPropertyError

/-- The object built by wrapGetters. -/
structure GettersWrapper where
  props : List GetterProp
deriving DecidableEq, Repr

/-- wrapGetters(store, getters, namespace): one read-only accessor property
per entry, each closing over its handler and the namespace; no call to
qualifyKey happens during the wrap itself. -/
def wrapGetters (entries : List (String × Handler)) (ns : String) :
    GettersWrapper :=
  ⟨entries.map fun e => ⟨e.1, e.2.name, ns, false⟩⟩

/-- A store with no history, no subscriptions and an empty getter registry,
used to instantiate theorems at concrete inputs. -/
def emptyStore (P : Type) : StoreState P :=
  { commits := []
    subs := []
    nextSubId := 0
    listenerCalls := []
    getters := fun _ => none }

/-- Projection of the wrapper's properties to (property name, dispatch key)
pairs, the data the function-valued fields are built from. -/
def accessorKeys (w : Wrapper P) : List (String × String) :=
  w.props.map fun a => (a.propName, a.dispatchKey)

/-- Invariant of a committer object during the reduce: its callable part is
the raw commit passthrough and every installed accessor dispatches one
root-level commit under its own qualified key. -/
def GoodW (w : Wrapper P) : Prop :=
  w.call = baseCall P ∧
  ∀ a ∈ w.props, ∀ st payload,
    a.call st payload = st.commit a.dispatchKey payload (some ⟨true⟩)

lemma exceptBindOk (a : α) (f : α → Except ε β) :
    (Except.ok a >>= f) = f a := rfl

lemma exceptBindError (err : ε) (f : α → Except ε β) :
    ((Except.error err : Except ε α) >>= f) = Except.error err := rfl

lemma qualifyKey_ok {h : Handler} {ns k : String}
    (hq : qualifyKey h ns = .ok k) :
    h.name ≠ "" ∧ k = qualifyStr h.name ns := by
  unfold qualifyKey at hq
  by_cases hn : h.name = ""
  · simp [hn] at hq
  · simp [hn] at hq
    exact ⟨hn, hq.symm⟩

lemma wrapMutationsGo_good {ns : String} {entries : List (String × Handler)}
    {w0 w : Wrapper P} (h0 : GoodW w0)
    (hw : wrapMutationsGo ns w0 entries = .ok w) : GoodW w := by
  induction entries generalizing w0 with
  | nil =>
      unfold wrapMutationsGo at hw
      cases hw
      exact h0
  | cons e rest ih =>
      unfold wrapMutationsGo at hw
      cases hq : qualifyKey e.2 ns with
      | error err => rw [hq, exceptBindError] at hw; exact absurd hw (by simp)
      | ok k =>
          rw [hq] at hw
          rw [exceptBindOk] at hw
          refine ih ?_ hw
          obtain ⟨hcall, hprops⟩ := h0
          refine ⟨hcall, ?_⟩
          intro a ha st payload
          rcases List.mem_append.mp ha with hmem | hmem
          · exact hprops a hmem st payload
          · rcases List.mem_singleton.mp hmem with rfl
            simp [hcall, baseCall]

lemma wrapMutationsGo_keys {ns : String} {entries : List (String × Handler)}
    {w0 w : Wrapper P} (hw : wrapMutationsGo ns w0 entries = .ok w) :
    accessorKeys w = accessorKeys w0 ++
      entries.map (fun e => (e.1, qualifyStr e.2.name ns)) := by
  induction entries generalizing w0 with
  | nil =>
      unfold wrapMutationsGo at hw
      cases hw
      simp
  | cons e rest ih =>
      unfold wrapMutationsGo at hw
      cases hq : qualifyKey e.2 ns with
      | error err => rw [hq, exceptBindError] at hw; exact absurd hw (by simp)
      | ok k =>
          rw [hq] at hw
          rw [exceptBindOk] at hw
          obtain ⟨hne, hk⟩ := qualifyKey_ok hq
          rw [ih hw]
          simp [accessorKeys, hk]

lemma wrapMutationsGo_err {ns : String} {entries : List (String × Handler)}
    {w0 : Wrapper P} (hanon : ∃ e ∈ entries, e.2.name = "") :
    wrapMutationsGo ns w0 entries = .error .InvalidHandlerIdentity := by
  induction entries generalizing w0 with
  | nil => simp at hanon
  | cons e rest ih =>
      unfold wrapMutationsGo
      by_cases hn : e.2.name = ""
      · simp [qualifyKey, hn, exceptBindError]
      · have : ∃ x ∈ rest, x.2.name = "" := by
          rcases hanon with ⟨x, hx, hxn⟩
          rcases List.mem_cons.mp hx with rfl | hx
          · exact absurd hxn hn
          · exact ⟨x, hx, hxn⟩
        simp [qualifyKey, hn, exceptBindOk, qualifyStr, ih this]

lemma wrapMutationsGo_ok_of_named {ns : String}
    {entries : List (String × Handler)} {w0 : Wrapper P}
    (hnamed : ∀ e ∈ entries, e.2.name ≠ "") :
    ∃ w, wrapMutationsGo ns w0 entries = .ok w := by
  induction entries generalizing w0 with
  | nil => exact ⟨w0, rfl⟩
  | cons e rest ih =>
      have hn : e.2.name ≠ "" := hnamed e (List.mem_cons_self e rest)
      have hrest : ∀ x ∈ rest, x.2.name ≠ "" :=
        fun x hx => hnamed x (List.mem_cons_of_mem e hx)
      obtain ⟨w, hw⟩ := @ih
        { w0 with
          props := w0.props ++
            [⟨e.1, qualifyStr e.2.name ns, fun st payload =>
                w0.call (qualifyStr e.2.name ns) payload (some ⟨true⟩) st⟩] }
        hrest
      refine ⟨w, ?_⟩
      unfold wrapMutationsGo
      rw [show qualifyKey e.2 ns = .ok (qualifyStr e.2.name ns) by
            simp [qualifyKey, hn],
          exceptBindOk]
      exact hw

lemma wrapMutations_good {ns : String} {entries : List (String × Handler)}
    {w : Wrapper P} (hw : wrapMutations P ns entries = .ok w) : GoodW w :=
  wrapMutationsGo_good ⟨rfl, by simp⟩ hw

lemma wrapMutations_keys {ns : String} {entries : List (String × Handler)}
    {w : Wrapper P} (hw : wrapMutations P ns entries = .ok w) :
    accessorKeys w = entries.map (fun e => (e.1, qualifyStr e.2.name ns)) := by
  have := wrapMutationsGo_keys hw
  simpa [accessorKeys] using this

/-- The payloads with which listener handler `L` has been invoked so far,
in order. -/
def callsFor (L : Nat) (st : StoreState P) : List (Option P) :=
  st.listenerCalls.filterMap fun c => if c.1 = L then some c.2 else none

lemma callsFor_commit (L : Nat) (st : StoreState P) (t : String)
    (p : Option P) (o : Option CommitOptions) :
    callsFor L (st.commit t p o) =
      callsFor L st ++
        (notify st.subs t p).filterMap
          (fun c => if c.1 = L then some c.2 else none) := by
  simp [callsFor, StoreState.commit, List.filterMap_append]

lemma notifyFor_nil {L : Nat} {subs : List Subscription} {t : String}
    {p : Option P} (hL : ∀ s ∈ subs, s.listener = L → s.filterKey ≠ t) :
    (notify subs t p).filterMap (fun c => if c.1 = L then some c.2 else none) =
      [] := by
  induction subs with
  | nil => simp [notify]
  | cons s rest ih =>
      have hs := hL s (List.mem_cons_self s rest)
      have hr := fun x hx => hL x (List.mem_cons_of_mem s hx)
      have ih' := ih hr
      by_cases hf : s.filterKey = t
      · have hls : s.listener ≠ L := fun h => hs h hf
        rw [show notify (s :: rest) t p = (s.listener, p) :: notify rest t p by
              simp [notify, List.filterMap_cons, hf],
            List.filterMap_cons]
        simp only [hls, if_neg, ite_false]
        exact ih'
      · rw [show notify (s :: rest) t p = notify rest t p by
              simp [notify, List.filterMap_cons, hf]]
        exact ih'

lemma notifyFor_append (xs ys : List Subscription) (t : String) (p : Option P)
    (L : Nat) :
    (notify (xs ++ ys) t p).filterMap
        (fun c => if c.1 = L then some c.2 else none) =
      (notify xs t p).filterMap (fun c => if c.1 = L then some c.2 else none) ++
        (notify ys t p).filterMap
          (fun c => if c.1 = L then some c.2 else none) := by
  simp [notify, List.filterMap_append]

lemma qualifyStr_inj (ns : String) {a b : String}
    (h : qualifyStr a ns = qualifyStr b ns) : a = b := by
  unfold qualifyStr at h
  by_cases hns : ns = ""
  · simpa [hns] using h
  · simp only [hns, if_false, ite_false] at h
    have hd := congrArg String.data h
    simp only [String.data_append, List.append_assoc] at hd
    have hd1 := List.append_cancel_left hd
    have hd2 := List.append_cancel_left hd1
    exact String.ext hd2

/-- A one-entry wrapped committer over the namespace "cart", used to
instantiate theorems at a concrete input. -/
def w1 : Wrapper Nat :=
  { call := baseCall Nat
    props := [⟨"addItem", "cart/addItem", fun st payload =>
        baseCall Nat "cart/addItem" payload (some ⟨true⟩) st⟩] }

/-- C5: key qualification equations — for every identifier and namespace,
qualification under the empty namespace is the identifier itself, and
under a non-empty namespace it is namespace ++ "/" ++ identifier;
qualification is a pure function of its two arguments. -/
theorem C5_qualify_equations (h : Handler) (ns : String)
    (hname : h.name ≠ "") :
    qualifyKey h "" = .ok h.name ∧
    (ns ≠ "" → qualifyKey h ns = .ok (ns ++ "/" ++ h.name)) := by
  constructor
  · simp [qualifyKey, hname, qualifyStr]
  · intro hns
    simp [qualifyKey, hname, qualifyStr, hns]

theorem C5_qualify_equations_witness :
    qualifyKey ⟨"addItem"⟩ "" = .ok "addItem" ∧
    ("cart" ≠ "" → qualifyKey ⟨"addItem"⟩ "cart" =
      .ok ("cart" ++ "/" ++ "addItem")) :=
  C5_qualify_equations ⟨"addItem"⟩ "cart" (by decide)

/-- C1: calling the wrapped mutation accessor installed for a handler map
entry, with a payload, results in exactly one store.commit call, whose key
is the qualification of the entry's handler identifier under the
namespace, whose payload is the given payload and whose options are
root := true. -/
theorem C1_accessor_single_commit (P : Type) (ns : String)
    (entries : List (String × Handler)) (w : Wrapper P)
    (hw : wrapMutations P ns entries = .ok w)
    (i : Nat) (hi : i < entries.length) (hip : i < w.props.length)
    (st : StoreState P) (payload : Option P) :
    ((w.props.get ⟨i, hip⟩).call st payload).commits =
      st.commits ++
        [(qualifyStr (entries.get ⟨i, hi⟩).2.name ns, payload,
          some ⟨true⟩)] := by
  have hgood := wrapMutations_good hw
  have hkeys := wrapMutations_keys hw
  have hmem : w.props.get ⟨i, hip⟩ ∈ w.props := List.get_mem _ _ _
  rw [hgood.2 _ hmem st payload]
  have hki := List.get_of_eq hkeys
    (⟨i, by simpa [accessorKeys] using hip⟩ : Fin (accessorKeys w).length)
  simp only [accessorKeys, List.get_eq_getElem, List.getElem_map] at hki
  have hdk : (w.props[i]).dispatchKey = qualifyStr (entries[i]).2.name ns := by
    simpa using congrArg Prod.snd hki
  simp [StoreState.commit, hdk]

theorem C1_accessor_single_commit_witness :
    ((w1.props.get ⟨0, by decide⟩).call (emptyStore Nat) (some 5)).commits =
      (emptyStore Nat).commits ++
        [(qualifyStr
            (([("addItem", (⟨"addItem"⟩ : Handler))].get ⟨0, by decide⟩).2.name)
            "cart", some 5, some ⟨true⟩)] :=
  C1_accessor_single_commit Nat "cart" [("addItem", ⟨"addItem"⟩)] w1 rfl
    0 (by decide) (by decide) (emptyStore Nat) (some 5)

/-- C9: the object returned by wrapMutations is itself directly callable,
and invoking it with (type, payload, options) calls store.commit with
exactly those arguments; besides that, the object carries one named
accessor property per handler map entry. -/
theorem C9_callable_passthrough (P : Type) (ns : String)
    (entries : List (String × Handler)) (w : Wrapper P)
    (hw : wrapMutations P ns entries = .ok w)
    (t : String) (payload : Option P) (o : Option CommitOptions)
    (st : StoreState P) :
    w.call t payload o st = st.commit t payload o ∧
    w.props.map Accessor.propName = entries.map Prod.fst := by
  have hgood := wrapMutations_good hw
  refine ⟨?_, ?_⟩
  · rw [hgood.1]
    rfl
  · have hkeys := wrapMutations_keys hw
    have hmap := congrArg (List.map Prod.fst) hkeys
    simpa [accessorKeys, List.map_map, Function.comp] using hmap

lemma exceptPureOk (a : α) : (pure a : Except ε α) = Except.ok a := rfl

lemma wrapMutations_names {ns : String} {entries : List (String × Handler)}
    {w : Wrapper P} (hw : wrapMutations P ns entries = .ok w) :
    ∀ e ∈ entries, e.2.name ≠ "" := by
  intro e he hname
  have herr := @wrapMutationsGo_err P ns entries (⟨baseCall P, []⟩ : Wrapper P)
    ⟨e, he, hname⟩
  rw [wrapMutations] at hw
  rw [herr] at hw
  exact Except.noConfusion hw

/-- A store whose live getter registry maps the key "total" to 42, used to
instantiate theorems at a concrete input. -/
def regStore : StoreState Nat :=
  { emptyStore Nat with getters := fun k => if k = "total" then some 42 else none }

/-- C6: each wrapped getter property, on every read, looks up the store's
live registry at the entry's qualified key at that moment and returns the
current value with no caching, so the same property read under a changed
registry yields the new value; an absent key reads as none rather than
raising. -/
theorem C6_live_getter_read (P : Type) (entries : List (String × Handler))
    (ns : String) (i : Nat) (hi : i < entries.length)
    (hig : i < (wrapGetters entries ns).props.length)
    (hname : (entries.get ⟨i, hi⟩).2.name ≠ "")
    (st : StoreState P) :
    ((wrapGetters entries ns).props.get ⟨i, hig⟩).read st =
      .ok (st.getters (qualifyStr (entries.get ⟨i, hi⟩).2.name ns)) ∧
    (st.getters (qualifyStr (entries.get ⟨i, hi⟩).2.name ns) = none →
      ((wrapGetters entries ns).props.get ⟨i, hig⟩).read st =
        .ok (none : Option P)) := by
  have hget : (wrapGetters entries ns).props.get ⟨i, hig⟩ =
      ⟨(entries.get ⟨i, hi⟩).1, (entries.get ⟨i, hi⟩).2.name, ns, false⟩ := by
    simp [wrapGetters, List.get_eq_getElem, List.getElem_map]
  have hname' : (entries[i]).2.name ≠ "" := by
    simpa [List.get_eq_getElem] using hname
  rw [hget]
  constructor
  · simp [GetterProp.read, qualifyKey, List.get_eq_getElem, hname',
      exceptBindOk, exceptPureOk]
  · intro habs
    simp only [List.get_eq_getElem] at habs
    simp [GetterProp.read, qualifyKey, List.get_eq_getElem, hname',
      exceptBindOk, exceptPureOk, habs]

theorem C6_live_getter_read_witness :
    ((wrapGetters [("total", ⟨"total"⟩)] "").props.get ⟨0, by decide⟩).read
        regStore = .ok (regStore.getters (qualifyStr "total" "")) ∧
    (regStore.getters (qualifyStr "total" "") = none →
      ((wrapGetters [("total", ⟨"total"⟩)] "").props.get ⟨0, by decide⟩).read
          regStore = .ok (none : Option Nat)) :=
  C6_live_getter_read Nat [("total", ⟨"total"⟩)] "" 0 (by decide) (by decide)
    (by decide) regStore

/-- C7: writing to any property of the object returned by wrapGetters
fails with ReadOnlyPropertyError (the defineProperty descriptor carries a
getter and no setter). -/
theorem C7_getter_write_fails (entries : List (String × Handler))
    (ns : String) (g : GetterProp)
    (hg : g ∈ (wrapGetters entries ns).props) :
    writeProperty g = .error .ReadOnlyPropertyError := by
  simp only [wrapGetters] at hg
  rcases List.mem_map.mp hg with ⟨e, _, rfl⟩
  rfl

theorem C7_getter_write_fails_witness :
    (⟨"total", "total", "", false⟩ : GetterProp) ∈
      (wrapGetters [("total", ⟨"total"⟩)] "").props ∧
    writeProperty ⟨"total", "total", "", false⟩ =
      .error .ReadOnlyPropertyError :=
  ⟨by decide, C7_getter_write_fails [("total", ⟨"total"⟩)] "" _ (by decide)⟩

/-- C10: for every handler map entry (k, h), the property installed by
wrapMutations and wrapGetters is named by the map key k, while the
dispatch/lookup key is the qualification of h's own declared name; when k
differs from h's declared name, the property named k dispatches and looks
up under the qualified declared name of h, not under qualify(k, ns). -/
theorem C10_map_key_vs_declared_name (P : Type) (ns : String)
    (entries : List (String × Handler)) (w : Wrapper P)
    (hw : wrapMutations P ns entries = .ok w)
    (i : Nat) (hi : i < entries.length) (hip : i < w.props.length)
    (hig : i < (wrapGetters entries ns).props.length)
    (k : String) (h : Handler) (he : entries.get ⟨i, hi⟩ = (k, h))
    (hk : k ≠ h.name) (st : StoreState P) :
    (w.props.get ⟨i, hip⟩).propName = k ∧
    (w.props.get ⟨i, hip⟩).dispatchKey = qualifyStr h.name ns ∧
    (w.props.get ⟨i, hip⟩).dispatchKey ≠ qualifyStr k ns ∧
    ((wrapGetters entries ns).props.get ⟨i, hig⟩).propName = k ∧
    ((wrapGetters entries ns).props.get ⟨i, hig⟩).read st =
      .ok (st.getters (qualifyStr h.name ns)) := by
  have hname : h.name ≠ "" := by
    intro h0
    exact wrapMutations_names hw (k, h)
      (by rw [← he]; exact List.get_mem _ _ _) h0
  have he' : entries[i] = (k, h) := by
    simpa [List.get_eq_getElem] using he
  have hkeys := wrapMutations_keys hw
  have hki := List.get_of_eq hkeys
    (⟨i, by simpa [accessorKeys] using hip⟩ : Fin (accessorKeys w).length)
  simp only [accessorKeys, List.get_eq_getElem, List.getElem_map] at hki
  rw [he'] at hki
  have hpn : (w.props[i]).propName = k := by
    simpa using congrArg Prod.fst hki
  have hdk : (w.props[i]).dispatchKey = qualifyStr h.name ns := by
    simpa using congrArg Prod.snd hki
  have hget : (wrapGetters entries ns).props.get ⟨i, hig⟩ =
      ⟨k, h.name, ns, false⟩ := by
    simp [wrapGetters, List.get_eq_getElem, List.getElem_map, he']
  refine ⟨?_, ?_, ?_, ?_, ?_⟩
  · simpa [List.get_eq_getElem] using hpn
  · simpa [List.get_eq_getElem] using hdk
  · simp only [List.get_eq_getElem]
    rw [hdk]
    intro hq
    exact hk (qualifyStr_inj ns hq).symm
  · rw [hget]
  · rw [hget]
    simp [GetterProp.read, qualifyKey, hname, exceptBindOk, exceptPureOk]

/-- A one-entry wrapped committer whose map key "alias" differs from the
handler's declared name "realName", used to instantiate theorems at a
concrete input. -/
def w2 : Wrapper Nat :=
  { call := baseCall Nat
    props := [⟨"alias", "m/realName", fun st payload =>
        baseCall Nat "m/realName" payload (some ⟨true⟩) st⟩] }

theorem C10_map_key_vs_declared_name_witness :
    (w2.props.get ⟨0, by decide⟩).propName = "alias" ∧
    (w2.props.get ⟨0, by decide⟩).dispatchKey = qualifyStr "realName" "m" ∧
    (w2.props.get ⟨0, by decide⟩).dispatchKey ≠ qualifyStr "alias" "m" ∧
    ((wrapGetters [("alias", ⟨"realName"⟩)] "m").props.get
        ⟨0, by decide⟩).propName = "alias" ∧
    ((wrapGetters [("alias", ⟨"realName"⟩)] "m").props.get
        ⟨0, by decide⟩).read (emptyStore Nat) =
      .ok ((emptyStore Nat).getters (qualifyStr "realName" "m")) :=
  C10_map_key_vs_declared_name Nat "m" [("alias", ⟨"realName"⟩)] w2 rfl
    0 (by decide) (by decide) (by decide) "alias" ⟨"realName"⟩ (by decide)
    (by decide) (emptyStore Nat)

/-- C4 counterexample: wrapping two handlers whose identifiers qualify to
the same key does not raise DuplicateKey — the wrap call succeeds and
installs two accessors sharing one dispatch key. -/
theorem C4_no_duplicate_key_error :
    Except.map accessorKeys
        (wrapMutations Nat "" [("a", ⟨"dup"⟩), ("b", ⟨"dup"⟩)]) =
      .ok [("a", "dup"), ("b", "dup")] := rfl

/-- C4 amended: wrapMutations performs no duplicate-key detection — every
handler map whose handlers all carry identifiers wraps successfully, even
when two entries qualify to the same key; both accessors are installed,
each dispatching under the shared qualified key. -/
theorem C4_amended_silent_duplicates (P : Type) (ns : String)
    (entries : List (String × Handler))
    (hnamed : ∀ e ∈ entries, e.2.name ≠ "") :
    ∃ w, wrapMutations P ns entries = .ok w ∧
      accessorKeys w =
        entries.map (fun e => (e.1, qualifyStr e.2.name ns)) := by
  obtain ⟨w, hw⟩ :=
    @wrapMutationsGo_ok_of_named P ns entries (⟨baseCall P, []⟩ : Wrapper P)
      hnamed
  have hw' : wrapMutations P ns entries = .ok w := hw
  exact ⟨w, hw', wrapMutations_keys hw'⟩

theorem C4_amended_silent_duplicates_witness :
    ∃ w, wrapMutations Nat "" [("a", ⟨"dup"⟩), ("b", ⟨"dup"⟩)] = .ok w ∧
      accessorKeys w =
        [("a", (⟨"dup"⟩ : Handler)), ("b", ⟨"dup"⟩)].map
          (fun e => (e.1, qualifyStr e.2.name "")) :=
  C4_amended_silent_duplicates Nat "" [("a", ⟨"dup"⟩), ("b", ⟨"dup"⟩)]
    (by decide)

/-- C8 counterexample: wrapGetters applied to an anonymous handler does not
fail during the wrap call — it returns a wrapper with the property
installed, and InvalidHandlerIdentity only surfaces when that property is
read. -/
theorem C8_getters_defer_identity_error :
    wrapGetters [("g", ⟨""⟩)] "m" = ⟨[⟨"g", "", "m", false⟩]⟩ ∧
    GetterProp.read ⟨"g", "", "m", false⟩ (emptyStore Nat) =
      .error .InvalidHandlerIdentity :=
  ⟨rfl, rfl⟩

/-- C8 amended: identity errors are eager only for wrapMutations — a
handler map containing a handler with no derivable identifier makes the
wrapMutations call itself return InvalidHandlerIdentity, while wrapGetters
always returns a wrapper and the InvalidHandlerIdentity failure is
deferred to each read of the anonymous handler's property. -/
theorem C8_amended_eager_only_mutations (P : Type) (ns : String)
    (entries : List (String × Handler))
    (hanon : ∃ e ∈ entries, e.2.name = "") :
    wrapMutations P ns entries = .error .InvalidHandlerIdentity ∧
    ∀ g ∈ (wrapGetters entries ns).props, g.getterName = "" →
      ∀ st : StoreState P, g.read st = .error .InvalidHandlerIdentity := by
  constructor
  · exact wrapMutationsGo_err hanon
  · intro g hg hgn st
    simp [GetterProp.read, qualifyKey, hgn, exceptBindError]

theorem C8_amended_eager_only_mutations_witness :
    wrapMutations Nat "m" [("g", ⟨""⟩)] =
      .error .InvalidHandlerIdentity ∧
    GetterProp.read ⟨"g", "", "m", false⟩ (emptyStore Nat) =
      .error .InvalidHandlerIdentity := by
  have h := C8_amended_eager_only_mutations Nat "m" [("g", ⟨""⟩)]
    ⟨("g", ⟨""⟩), by decide, rfl⟩
  exact ⟨h.1, h.2 ⟨"g", "", "m", false⟩ (by decide) rfl (emptyStore Nat)⟩

/-- C3: listener isolation — a listener registered via listen() on an
accessor whose qualified key is a.dispatchKey is never invoked by a commit
dispatched through the same store under a different type K2. -/
theorem C3_listener_isolation (P : Type) (a : Accessor P)
    (st : StoreState P) (L : Nat) (K2 : String) (p : Option P)
    (o : Option CommitOptions)
    (hL : ∀ s ∈ st.subs, s.listener ≠ L)
    (hne : K2 ≠ a.dispatchKey) :
    callsFor L (((a.listen st L).1).commit K2 p o) =
      callsFor L ((a.listen st L).1) := by
  have hsub1 : ((a.listen st L).1).subs =
      st.subs ++ [⟨st.nextSubId, a.dispatchKey, L⟩] := rfl
  have hcond : ∀ s ∈ ((a.listen st L).1).subs,
      s.listener = L → s.filterKey ≠ K2 := by
    rw [hsub1]
    intro s hs hls
    rcases List.mem_append.mp hs with hmem | hmem
    · exact absurd hls (hL s hmem)
    · rcases List.mem_singleton.mp hmem with rfl
      exact fun hf => hne hf.symm
  rw [callsFor_commit, notifyFor_nil hcond, List.append_nil]

theorem C3_listener_isolation_witness :
    callsFor 7
        ((((w1.props.get ⟨0, by decide⟩).listen (emptyStore Nat) 7).1).commit
          "other" (some 1) none) =
      callsFor 7 (((w1.props.get ⟨0, by decide⟩).listen (emptyStore Nat) 7).1) :=
  C3_listener_isolation Nat (w1.props.get ⟨0, by decide⟩) (emptyStore Nat)
    7 "other" (some 1) none (by simp [emptyStore]) (by decide)

/-- C2: listener round-trip — after registering listener L on a wrapped
mutation accessor via listen, a single accessor call with a payload
invokes L exactly once with that payload; after invoking the disposer
returned by listen, a subsequent accessor call does not invoke L. -/
theorem C2_listener_roundtrip (P : Type) (ns : String)
    (entries : List (String × Handler)) (w : Wrapper P)
    (hw : wrapMutations P ns entries = .ok w)
    (a : Accessor P) (ha : a ∈ w.props)
    (st : StoreState P) (L : Nat) (p q : Option P)
    (hL : ∀ s ∈ st.subs, s.listener ≠ L)
    (hid : ∀ s ∈ st.subs, s.id < st.nextSubId) :
    callsFor L (a.call ((a.listen st L).1) p) =
      callsFor L ((a.listen st L).1) ++ [p] ∧
    callsFor L
        (a.call ((a.call ((a.listen st L).1) p).unsubscribe
          ((a.listen st L).2)) q) =
      callsFor L ((a.call ((a.listen st L).1) p).unsubscribe
        ((a.listen st L).2)) := by
  have hcall := (wrapMutations_good hw).2 a ha
  have hsub1 : ((a.listen st L).1).subs =
      st.subs ++ [⟨st.nextSubId, a.dispatchKey, L⟩] := rfl
  have hL1 : ∀ s ∈ st.subs, s.listener = L → s.filterKey ≠ a.dispatchKey :=
    fun s hs hls _ => hL s hs hls
  constructor
  · rw [hcall, callsFor_commit, hsub1, notifyFor_append, notifyFor_nil hL1]
    simp [notify]
  · simp only [hcall]
    rw [callsFor_commit]
    have hst3 : ((((a.listen st L).1).commit a.dispatchKey p
          (some (CommitOptions.mk true))).unsubscribe
          ((a.listen st L).2)).subs = st.subs := by
      show (st.subs ++
          [(⟨st.nextSubId, a.dispatchKey, L⟩ : Subscription)]).filter
        (fun s => s.id != st.nextSubId) = st.subs
      rw [List.filter_append]
      have h1 : st.subs.filter (fun s => s.id != st.nextSubId) = st.subs := by
        rw [List.filter_eq_self]
        intro s hs
        have hlt := hid s hs
        simp only [bne_iff_ne, ne_eq, decide_eq_true_eq]
        omega
      simp [h1]
    rw [hst3, notifyFor_nil hL1, List.append_nil]

theorem C2_listener_roundtrip_witness :
    callsFor 7
        ((w1.props.get ⟨0, by decide⟩).call
          (((w1.props.get ⟨0, by decide⟩).listen (emptyStore Nat) 7).1)
          (some 5)) =
      callsFor 7
          (((w1.props.get ⟨0, by decide⟩).listen (emptyStore Nat) 7).1) ++
        [some 5] ∧
    callsFor 7
        ((w1.props.get ⟨0, by decide⟩).call
          (((w1.props.get ⟨0, by decide⟩).call
              (((w1.props.get ⟨0, by decide⟩).listen (emptyStore Nat) 7).1)
              (some 5)).unsubscribe
            (((w1.props.get ⟨0, by decide⟩).listen (emptyStore Nat) 7).2))
          (some 6)) =
      callsFor 7
        (((w1.props.get ⟨0, by decide⟩).call
            (((w1.props.get ⟨0, by decide⟩).listen (emptyStore Nat) 7).1)
            (some 5)).unsubscribe
          (((w1.props.get ⟨0, by decide⟩).listen (emptyStore Nat) 7).2)) :=
  C2_listener_roundtrip Nat "cart" [("addItem", ⟨"addItem"⟩)] w1 rfl
    (w1.props.get ⟨0, by decide⟩) (List.get_mem w1.props 0 (by decide))
    (emptyStore Nat) 7 (some 5) (some 6) (by simp [emptyStore])
    (by simp [emptyStore])

theorem C9_callable_passthrough_witness :
    w1.call "other" (some 3) none (emptyStore Nat) =
      (emptyStore Nat).commit "other" (some 3) none ∧
    w1.props.map Accessor.propName =
      [("addItem", (⟨"addItem"⟩ : Handler))].map Prod.fst :=
  C9_callable_passthrough Nat "cart" [("addItem", ⟨"addItem"⟩)] w1 rfl
    "other" (some 3) none (emptyStore Nat)
